/-
Verification of the epyc experiment-management core: the schema-evolving
result store described in the specification, and the parameter-space
generator of `lab.py`.  The result-store class itself is not present in the
sources (only its test suite is), so its operations are modelled from the
specification, cross-checked against the behaviour the test suite pins
down; the parameter-space generator is embedded directly from
`src/epyc/lab.py`.
-/
import Mathlib

namespace Epyc

/-- Scalar values carried by records.  Embeds the Python value universe the
spec's type-mapping table covers: integers, floats (modelled as rationals),
booleans, strings and timestamps. -/
inductive Value where
  | vint (n : Int)
  | vfloat (q : ℚ)
  | vbool (b : Bool)
  | vstr (s : String)
  | vtime (t : Nat)
deriving DecidableEq

/-- Storage types of schema columns (spec section 3). -/
inductive StorageType where
  | tint
  | tfloat
  | tbool
  | tstr
  | ttime
deriving DecidableEq

/-- The spec's three record partitions: metadata, parameters, results. -/
inductive FieldKind where
  | meta
  | param
  | result
deriving DecidableEq

/-- Modelled from the spec: the fixed mapping of source value types to
storage types used at first inference. -/
def typeOf : Value → StorageType
  | .vint _ => .tint
  | .vfloat _ => .tfloat
  | .vbool _ => .tbool
  | .vstr _ => .tstr
  | .vtime _ => .ttime

/-- Modelled from the spec: the backfill value actually used for a missing
field.  Spec section 9 records that the observed contract backfills numeric
zero regardless of the column's type (the test suite asserts that a text
column backfilled by a later schema extension compares equal to 0), and asks
implementers to preserve that behaviour. -/
def sentinel : Value := .vint 0

/-- The sentinel default as the words of spec section 3 describe it: zero for
numeric and boolean columns and the empty string for text columns.  Kept
separate from `sentinel` so the two descriptions can be compared. -/
def specDefaultFor : StorageType → Value
  | .tint => .vint 0
  | .tfloat => .vfloat 0
  | .tbool => .vbool false
  | .tstr => .vstr ""
  | .ttime => .vtime 0

/-- A stored row: field name to value, in schema order. -/
abbrev Row := List (String × Value)

/-- Modelled from the spec: one experiment invocation's record, three named
partitions mapping field names to scalar values. -/
structure Record where
  metadata : List (String × Value)
  parameters : List (String × Value)
  results : List (String × Value)
deriving DecidableEq

/-- Modelled from the spec: the fixed standard metadata field set with its
storage types — experiment identifier, start and end times, the four
durations, the success flag, and the always-present exception and traceback
strings. -/
def standardMetadata : List (String × StorageType) :=
  [("experiment", .tstr), ("start_time", .ttime), ("end_time", .ttime),
   ("setup_time", .tfloat), ("run_time", .tfloat), ("teardown_time", .tfloat),
   ("elapsed_time", .tfloat), ("status", .tbool),
   ("exception", .tstr), ("traceback", .tstr)]

/-- The record's success flag, read from the standard status metadata
field. -/
def Record.success (rc : Record) : Bool :=
  rc.metadata.lookup "status" == some (.vbool true)

/-- One schema column: its name, the partition it belongs to, and its
storage type (spec section 3). -/
structure SchemaEntry where
  name : String
  kind : FieldKind
  stype : StorageType
deriving DecidableEq

/-- Modelled from the spec: the result store's state — the ordered schema,
the stored rows, the outstanding pending jobs, and the two change-tracking
flags. -/
structure ResultSet where
  schema : List SchemaEntry
  rows : List Row
  pending : List (String × List (String × Value))
  dirty : Bool
  typechanged : Bool
deriving DecidableEq

/-- A freshly constructed store: empty schema, no rows, no pending jobs. -/
def emptyResultSet : ResultSet :=
  { schema := [], rows := [], pending := [], dirty := false, typechanged := false }

/-- Modelled from the spec: the fields `inferDtype` contributes — the fixed
standard metadata set unconditionally (exception and traceback included),
the record's own metadata and parameter fields, and its result fields only
when the success flag is true; types are inferred from the supplied values,
first occurrence winning. -/
def contributedFields (rc : Record) : List (String × FieldKind × StorageType) :=
  standardMetadata.map (fun nt => (nt.1, FieldKind.meta, nt.2))
    ++ rc.metadata.map (fun nv => (nv.1, FieldKind.meta, typeOf nv.2))
    ++ rc.parameters.map (fun nv => (nv.1, FieldKind.param, typeOf nv.2))
    ++ (if rc.success then rc.results.map (fun nv => (nv.1, FieldKind.result, typeOf nv.2))
        else [])

/-- Modelled from the spec: walk the contributed fields in order; a name not
already known is appended to the schema with its inferred type, while a
known name keeps its existing entry untouched.  Returns just the newly
appended entries. -/
def freshFields (schema : List SchemaEntry) :
    List (String × FieldKind × StorageType) → List SchemaEntry
  | [] => []
  | f :: fs =>
    if schema.any (fun e => e.name == f.1) then freshFields schema fs
    else ⟨f.1, f.2.1, f.2.2⟩ :: freshFields (schema ++ [⟨f.1, f.2.1, f.2.2⟩]) fs

/-- Modelled from the spec: extend the schema with the fresh fields, backfill
every stored row's new columns with the sentinel default, and raise the
type-changed flag when the schema grew.  The dirty flag is untouched. -/
def inferFields (rs : ResultSet) (fs : List (String × FieldKind × StorageType)) : ResultSet :=
  let ext := freshFields rs.schema fs
  { rs with
    schema := rs.schema ++ ext
    rows := rs.rows.map (fun row => row ++ ext.map (fun e => (e.name, sentinel)))
    typechanged := rs.typechanged || !ext.isEmpty }

/-- Modelled from the spec: schema inference over a full record. -/
def inferDtype (rs : ResultSet) (rc : Record) : ResultSet :=
  inferFields rs (contributedFields rc)

/-- Modelled from the spec: the same inference restricted to the parameter
partition, used to register the shape of a pending job. -/
def inferPendingResultDtype (rs : ResultSet) (ps : List (String × Value)) : ResultSet :=
  inferFields rs (ps.map (fun nv => (nv.1, FieldKind.param, typeOf nv.2)))

/-- The fields a record actually supplies to its row: metadata and
parameters always, results only when the record succeeded (spec section 3:
results are populated only on success). -/
def effectiveFields (rc : Record) : List (String × Value) :=
  rc.metadata ++ rc.parameters ++ (if rc.success then rc.results else [])

/-- Modelled from the spec: flatten a record across the current schema; any
schema field the record does not supply is filled with the sentinel
default. -/
def buildRow (schema : List SchemaEntry) (rc : Record) : Row :=
  schema.map (fun e => (e.name, ((effectiveFields rc).lookup e.name).getD sentinel))

/-- Modelled from the spec: run schema inference, then append one row built
from the record's values, and set the dirty flag. -/
def addSingleResult (rs : ResultSet) (rc : Record) : ResultSet :=
  let rs' := inferDtype rs rc
  { rs' with rows := rs'.rows ++ [buildRow rs'.schema rc], dirty := true }

/-- A query constraint for one field: a single value (equality match) or a
collection of values (membership match). -/
inductive QueryVal where
  | single (v : Value)
  | several (vs : List Value)
deriving DecidableEq

/-- A partial-parameters query: field names with their constraints. -/
abbrev Query := List (String × QueryVal)

/-- Modelled from the spec: does a row satisfy one field's constraint? -/
def matchesField (row : Row) (k : String) : QueryVal → Bool
  | .single v =>
    match row.lookup k with
    | some w => w == v
    | none => false
  | .several vs =>
    match row.lookup k with
    | some w => vs.any (fun v => w == v)
    | none => false

/-- Modelled from the spec: a row matches a query when it satisfies every
field constraint; omitted fields are unconstrained. -/
def matchesQuery (row : Row) (q : Query) : Bool :=
  q.all (fun kv => matchesField row kv.1 kv.2)

/-- Modelled from the spec: return an independent copy of the matching rows
in tabular shape. -/
def dataframeFor (rs : ResultSet) (q : Query) : List Row :=
  rs.rows.filter (fun row => matchesQuery row q)

/-- The query as a state-passing operation: the returned frame together with
the store the caller continues with (queries do not mutate the store). -/
def dataframeForS (rs : ResultSet) (q : Query) : List Row × ResultSet :=
  (dataframeFor rs q, rs)

/-- Python-dict style assignment on an association list: overwrite the key in
place when present, append it otherwise. -/
def dictSet (d : List (String × Value)) (k : String) (v : Value) : List (String × Value) :=
  if d.any (fun kv => kv.1 == k) then d.map (fun kv => if kv.1 == k then (k, v) else kv)
  else d ++ [(k, v)]

/-- An in-place cell update applied to a returned dataframe: set field `k` of
row `i` to `v`. -/
def updateCell (df : List Row) (i : Nat) (k : String) (v : Value) : List Row :=
  match df[i]? with
  | some row => df.set i (dictSet row k v)
  | none => df

/-- Errors of the pending-job protocol and related store operations (spec
section 7). -/
inductive StoreError where
  | DuplicateJob
  | UnknownJob
  | ParameterMismatch
deriving DecidableEq

/-- Is the job identifier currently outstanding? -/
def outstanding (rs : ResultSet) (jobId : String) : Bool :=
  rs.pending.any (fun p => p.1 == jobId)

/-- The parameter field names currently known to the schema. -/
def parameterNamesOf (rs : ResultSet) : List String :=
  (rs.schema.filter (fun e => e.kind == FieldKind.param)).map SchemaEntry.name

/-- Does `big` contain every name of `small`? -/
def supersetOf (big small : List String) : Bool :=
  small.all (fun n => big.contains n)

/-- Modelled from the spec: register a pending job.  Fails with DuplicateJob
when the identifier is already outstanding, with ParameterMismatch when the
supplied parameter names are not a superset of the schema's known parameter
names; otherwise runs pending-shape inference and records the job.
Validation happens before any mutation (spec section 7). -/
def addSinglePendingResult (rs : ResultSet) (ps : List (String × Value)) (jobId : String) :
    Except StoreError ResultSet :=
  if outstanding rs jobId then .error .DuplicateJob
  else if supersetOf (ps.map Prod.fst) (parameterNamesOf rs) then
    let rs' := inferPendingResultDtype rs ps
    .ok { rs' with pending := rs'.pending ++ [(jobId, ps)] }
  else .error .ParameterMismatch

/-- Modelled from the spec: cancel a pending job.  Fails with UnknownJob when
the identifier is not outstanding; on success removes the job and touches
neither rows nor schema. -/
def cancelSinglePendingResult (rs : ResultSet) (jobId : String) :
    Except StoreError ResultSet :=
  if outstanding rs jobId then
    .ok { rs with pending := rs.pending.filter (fun p => !(p.1 == jobId)) }
  else .error .UnknownJob

/-- Reset the type-changed flag (the externally resettable observation flag
of spec section 3). -/
def resetTypeChanged (rs : ResultSet) : ResultSet :=
  { rs with typechanged := false }

/-- The store operations a caller can interleave (spec section 8's "any
sequence of operations"). -/
inductive Op where
  | addResult (rc : Record)
  | addPending (ps : List (String × Value)) (jobId : String)
  | cancelPending (jobId : String)
  | inferRecord (rc : Record)
  | inferPending (ps : List (String × Value))
  | runQuery (q : Query)
  | resetFlag

/-- One step of the store under an operation; a failing pending operation
leaves the state unchanged (spec section 7: no partial mutation on
failure), and queries do not mutate. -/
def step (rs : ResultSet) : Op → ResultSet
  | .addResult rc => addSingleResult rs rc
  | .addPending ps jobId =>
    match addSinglePendingResult rs ps jobId with
    | .ok rs' => rs'
    | .error _ => rs
  | .cancelPending jobId =>
    match cancelSinglePendingResult rs jobId with
    | .ok rs' => rs'
    | .error _ => rs
  | .inferRecord rc => inferDtype rs rc
  | .inferPending ps => inferPendingResultDtype rs ps
  | .runQuery _ => rs
  | .resetFlag => resetTypeChanged rs

/-- The count of stored rows. -/
def numberOfResults (rs : ResultSet) : Nat :=
  rs.rows.length

/-- Run a sequence of `addSingleResult` calls on a fresh store. -/
def applyAll (rcs : List Record) : ResultSet :=
  rcs.foldl addSingleResult emptyResultSet

/-- A record's exact parameter assignment as an equality query. -/
def toQuery (ps : List (String × Value)) : Query :=
  ps.map (fun kv => (kv.1, QueryVal.single kv.2))

/-- Store well-formedness: every stored row carries exactly the schema's
field names, in order. -/
def rowsWf (rs : ResultSet) : Bool :=
  rs.rows.all (fun row => row.map Prod.fst == rs.schema.map SchemaEntry.name)

/-- Record well-formedness, inherited from Python dicts: parameter names are
distinct and do not collide with metadata names (spec section 3: a field
name belongs to exactly one partition). -/
def Record.wf (rc : Record) : Prop :=
  (rc.parameters.map Prod.fst).Nodup ∧ ∀ p ∈ rc.parameters, p.1 ∉ rc.metadata.map Prod.fst

instance recordWfDecidable (rc : Record) : Decidable rc.wf :=
  inferInstanceAs (Decidable ((rc.parameters.map Prod.fst).Nodup ∧
    ∀ p ∈ rc.parameters, p.1 ∉ rc.metadata.map Prod.fst))

/-- A laboratory, embedded from `lab.py`: its parameter dict, an
insertion-ordered mapping from parameter name to value range. -/
structure Lab where
  parameters : List (String × List Value)
deriving DecidableEq

/-- `self._parameters[p]` of `lab.py`: the range registered for a name. -/
def paramRange (lab : Lab) (p : String) : List Value :=
  (lab.parameters.lookup p).getD []

/-- `Lab._crossProduct` of `lab.py`, taking the nonempty list of parameter
names as head and tail: the last name maps each of its values to a
one-entry dict; an earlier name combines each of its values with a copy of
every dict produced by the cross product of the remaining names. -/
def crossProduct (lab : Lab) : String → List String → List (List (String × Value))
  | p, [] => (paramRange lab p).map (fun i => [(p, i)])
  | p, q :: ls =>
    let ps := crossProduct lab q ls
    (paramRange lab p).flatMap (fun i => ps.map (fun d => dictSet d p i))

/-- `Lab.parameterSpace` of `lab.py`: the empty list when there are no
parameters, otherwise the cross product over the parameter names. -/
def parameterSpace (lab : Lab) : List (List (String × Value)) :=
  match lab.parameters with
  | [] => []
  | e :: rest => crossProduct lab e.1 (rest.map Prod.fst)

/-- `Lab.__len__` of `lab.py`: starting from 1, multiply by the length of
each parameter's range. -/
def labLen (lab : Lab) : Nat :=
  (lab.parameters.map Prod.fst).foldl (fun n p => n * (paramRange lab p).length) 1

/-- The cartesian product as the words of spec section 4.5 describe it: zero
ranges give the empty list; one range gives one assignment per value;
otherwise each value of the first range is paired with every assignment from
the cross product of the remaining ranges. -/
def specCartesian : List (String × List Value) → List (List (String × Value))
  | [] => []
  | (p, r) :: rest =>
    match rest with
    | [] => r.map (fun v => [(p, v)])
    | _ :: _ => r.flatMap (fun v => (specCartesian rest).map (fun d => dictSet d p v))

end Epyc

deriving instance DecidableEq for Except

namespace Epyc

/-- A fully populated standard metadata assignment for a successful run,
used by the concrete scenarios below. -/
def mdOK : List (String × Value) :=
  [("experiment", .vstr "T"), ("start_time", .vtime 0), ("end_time", .vtime 1),
   ("setup_time", .vfloat 0), ("run_time", .vfloat 0), ("teardown_time", .vfloat 0),
   ("elapsed_time", .vfloat 0), ("status", .vbool true),
   ("exception", .vstr ""), ("traceback", .vstr "")]

/-- First concrete record: parameter k = 1, one float result. -/
def rc1 : Record :=
  { metadata := mdOK, parameters := [("k", .vint 1)], results := [("total", .vfloat 2)] }

/-- Second concrete record: parameter k = 2 and an extra text result field
the first record does not carry. -/
def rc2 : Record :=
  { metadata := mdOK
    parameters := [("k", .vint 2)]
    results := [("total", .vfloat 3), ("extra", .vstr "hello")] }

/-- The store after adding `rc1`. -/
def rsA : ResultSet := addSingleResult emptyResultSet rc1

/-- The store after adding `rc1` and then `rc2`; adding `rc2` extends the
schema with the text field `extra` and backfills `rc1`'s row. -/
def rsB : ResultSet := addSingleResult rsA rc2

/-- A store with one outstanding pending job `J` over parameter x. -/
def rsP : ResultSet :=
  match addSinglePendingResult emptyResultSet [("x", .vint 5)] "J" with
  | .ok rs => rs
  | .error _ => emptyResultSet

/-- The store `rsP` after cancelling job `J`. -/
def rsQ : ResultSet :=
  match cancelSinglePendingResult rsP "J" with
  | .ok rs => rs
  | .error _ => rsP

/-- A standard metadata assignment for a failed run. -/
def mdFail : List (String × Value) :=
  [("experiment", .vstr "T"), ("start_time", .vtime 0), ("end_time", .vtime 1),
   ("setup_time", .vfloat 0), ("run_time", .vfloat 0), ("teardown_time", .vfloat 0),
   ("elapsed_time", .vfloat 0), ("status", .vbool false),
   ("exception", .vstr "wrong"), ("traceback", .vstr "<backtrace>")]

/-- A failed record carrying a result field that must not reach the
schema. -/
def rcF : Record :=
  { metadata := mdFail, parameters := [("k", .vint 1)], results := [("secret", .vint 7)] }

/-- A two-parameter lab. -/
def lab2 : Lab :=
  { parameters := [("a", [.vint 1, .vint 2]), ("b", [.vint 3, .vint 4, .vint 5])] }

/-- A lab with no parameters. -/
def lab0 : Lab := { parameters := [] }

/-! Helper lemmas about association-list lookup. -/

theorem lookup_eq_none {β : Type} {l : List (String × β)} {k : String}
    (h : k ∉ l.map Prod.fst) : l.lookup k = none := by
  induction l with
  | nil => rfl
  | cons e t ih =>
    obtain ⟨a, b⟩ := e
    simp only [List.map_cons, List.mem_cons, not_or] at h
    have hk : (k == a) = false := beq_eq_false_iff_ne.mpr h.1
    simp [List.lookup, hk, ih h.2]

theorem lookup_append_some {β : Type} {l l' : List (String × β)} {k : String} {v : β}
    (h : l.lookup k = some v) : (l ++ l').lookup k = some v := by
  induction l with
  | nil => cases h
  | cons e t ih =>
    obtain ⟨a, b⟩ := e
    cases hk : (k == a) with
    | true => simp [List.lookup, hk] at h ⊢; exact h
    | false =>
      simp only [List.lookup, hk] at h
      simp [List.lookup, hk, ih h]

theorem lookup_append_none {β : Type} {l l' : List (String × β)} {k : String}
    (h : l.lookup k = none) : (l ++ l').lookup k = l'.lookup k := by
  induction l with
  | nil => rfl
  | cons e t ih =>
    obtain ⟨a, b⟩ := e
    cases hk : (k == a) with
    | true => simp [List.lookup, hk] at h
    | false =>
      simp only [List.lookup, hk] at h
      simp [List.lookup, hk, ih h]

theorem lookup_of_mem_nodup {β : Type} {l : List (String × β)} {k : String} {v : β}
    (hnd : (l.map Prod.fst).Nodup) (hm : (k, v) ∈ l) : l.lookup k = some v := by
  induction l with
  | nil => cases hm
  | cons e t ih =>
    obtain ⟨a, b⟩ := e
    simp only [List.map_cons, List.nodup_cons] at hnd
    rcases List.mem_cons.mp hm with h | h
    · have ha : a = k := ((Prod.ext_iff.mp h).1).symm
      have hb : b = v := ((Prod.ext_iff.mp h).2).symm
      subst ha
      subst hb
      simp [List.lookup]
    · have hka : (k == a) = false := by
        refine beq_eq_false_iff_ne.mpr ?_
        intro hk
        exact hnd.1 (hk ▸ List.mem_map.mpr ⟨(k, v), h, rfl⟩)
      simp [List.lookup, hka, ih hnd.2 h]

theorem lookup_map_name {g : String → Value} {l : List SchemaEntry} {k : String}
    (h : k ∈ l.map SchemaEntry.name) :
    (l.map (fun e => (e.name, g e.name))).lookup k = some (g k) := by
  induction l with
  | nil => cases h
  | cons e t ih =>
    by_cases hk : k = e.name
    · subst hk
      simp [List.lookup]
    · have hfalse : (k == e.name) = false := beq_eq_false_iff_ne.mpr hk
      have h' : k ∈ t.map SchemaEntry.name := by
        simp only [List.map_cons, List.mem_cons] at h
        rcases h with h0 | h0
        · exact absurd h0 hk
        · exact h0
      simp [List.lookup, hfalse, ih h']

/-! Helper lemmas about query matching under row extension. -/

theorem matchesField_append {row ext : Row} {k : String} {qv : QueryVal}
    (h : matchesField row k qv = true) : matchesField (row ++ ext) k qv = true := by
  cases qv with
  | single v =>
    unfold matchesField at h ⊢
    cases hl : row.lookup k with
    | none => rw [hl] at h; cases h
    | some w => rw [lookup_append_some hl]; rw [hl] at h; exact h
  | several vs =>
    unfold matchesField at h ⊢
    cases hl : row.lookup k with
    | none => rw [hl] at h; cases h
    | some w => rw [lookup_append_some hl]; rw [hl] at h; exact h

theorem matchesQuery_append {row ext : Row} {q : Query}
    (h : matchesQuery row q = true) : matchesQuery (row ++ ext) q = true := by
  unfold matchesQuery at h ⊢
  rw [List.all_eq_true] at h ⊢
  intro kv hkv
  exact matchesField_append (h kv hkv)

/-! Helper lemmas about `freshFields` and schema growth. -/

theorem freshFields_names_sub :
    ∀ (fs : List (String × FieldKind × StorageType)) (schema : List SchemaEntry),
      ∀ e ∈ freshFields schema fs, e.name ∈ fs.map Prod.fst := by
  intro fs
  induction fs with
  | nil => intro schema e he; cases he
  | cons f t ih =>
    intro schema e he
    by_cases hk : schema.any (fun e => e.name == f.1) = true
    · rw [freshFields, if_pos hk] at he
      exact List.mem_cons_of_mem _ (ih schema e he)
    · rw [freshFields, if_neg hk] at he
      rcases List.mem_cons.mp he with h0 | h0
      · subst h0; exact List.mem_cons_self _ _
      · exact List.mem_cons_of_mem _ (ih _ e h0)

theorem freshFields_fresh :
    ∀ (fs : List (String × FieldKind × StorageType)) (schema : List SchemaEntry),
      ∀ e ∈ freshFields schema fs, ∀ e' ∈ schema, e'.name ≠ e.name := by
  intro fs
  induction fs with
  | nil => intro schema e he; cases he
  | cons f t ih =>
    intro schema e he
    by_cases hk : schema.any (fun e => e.name == f.1) = true
    · rw [freshFields, if_pos hk] at he
      exact ih schema e he
    · rw [freshFields, if_neg hk] at he
      have hnot : ∀ e' ∈ schema, ¬(e'.name == f.1) = true :=
        List.any_eq_false.mp (Bool.eq_false_iff.mpr hk)
      rcases List.mem_cons.mp he with h0 | h0
      · subst h0
        intro e' he' hcontra
        exact hnot e' he' (beq_iff_eq.mpr hcontra)
      · intro e' he'
        exact ih _ e h0 e' (List.mem_append_left _ he')

theorem names_mem_freshFields :
    ∀ (fs : List (String × FieldKind × StorageType)) (schema : List SchemaEntry)
      (x : String × FieldKind × StorageType), x ∈ fs →
      x.1 ∈ (schema ++ freshFields schema fs).map SchemaEntry.name := by
  intro fs
  induction fs with
  | nil => intro schema x hx; cases hx
  | cons f t ih =>
    intro schema x hx
    by_cases hk : schema.any (fun e => e.name == f.1) = true
    · rw [freshFields, if_pos hk]
      rcases List.mem_cons.mp hx with h0 | h0
      · subst h0
        obtain ⟨e, he, hbe⟩ := List.any_eq_true.mp hk
        have : e.name = x.1 := beq_iff_eq.mp hbe
        rw [List.map_append]
        exact List.mem_append_left _ (this ▸ List.mem_map.mpr ⟨e, he, rfl⟩)
      · exact ih schema x h0
    · rw [freshFields, if_neg hk]
      rcases List.mem_cons.mp hx with h0 | h0
      · subst h0
        rw [List.map_append]
        refine List.mem_append_right _ ?_
        simp
      · have := ih (schema ++ [⟨f.1, f.2.1, f.2.2⟩]) x h0
        rw [List.append_assoc, List.singleton_append] at this
        exact this

theorem append_right_nil_of_eq {α : Type} {l ext : List α} (h : l ++ ext = l) : ext = [] := by
  have h2 := congrArg List.length h
  simp at h2
  exact h2

/-! Structural equations for `inferFields` and the operations built on it. -/

theorem inferFields_schema (rs : ResultSet) (fs : List (String × FieldKind × StorageType)) :
    (inferFields rs fs).schema = rs.schema ++ freshFields rs.schema fs := rfl

theorem inferFields_rows (rs : ResultSet) (fs : List (String × FieldKind × StorageType)) :
    (inferFields rs fs).rows =
      rs.rows.map (fun row => row ++ (freshFields rs.schema fs).map (fun e => (e.name, sentinel))) := rfl

theorem inferFields_typechanged (rs : ResultSet) (fs : List (String × FieldKind × StorageType)) :
    (inferFields rs fs).typechanged = (rs.typechanged || !(freshFields rs.schema fs).isEmpty) := rfl

theorem inferFields_pending (rs : ResultSet) (fs : List (String × FieldKind × StorageType)) :
    (inferFields rs fs).pending = rs.pending := rfl

theorem addSingleResult_schema (rs : ResultSet) (rc : Record) :
    (addSingleResult rs rc).schema = rs.schema ++ freshFields rs.schema (contributedFields rc) := rfl

theorem addSingleResult_rows (rs : ResultSet) (rc : Record) :
    (addSingleResult rs rc).rows =
      rs.rows.map (fun row =>
          row ++ (freshFields rs.schema (contributedFields rc)).map (fun e => (e.name, sentinel)))
        ++ [buildRow (addSingleResult rs rc).schema rc] := rfl

theorem addSingleResult_typechanged (rs : ResultSet) (rc : Record) :
    (addSingleResult rs rc).typechanged = (inferDtype rs rc).typechanged := rfl

theorem addSingleResult_rows_length (rs : ResultSet) (rc : Record) :
    (addSingleResult rs rc).rows.length = rs.rows.length + 1 := by
  rw [addSingleResult_rows, List.length_append, List.length_map]
  rfl

theorem foldl_rows_length (rcs : List Record) :
    ∀ rs : ResultSet, (rcs.foldl addSingleResult rs).rows.length = rs.rows.length + rcs.length := by
  induction rcs with
  | nil => intro rs; simp
  | cons rc t ih =>
    intro rs
    rw [List.foldl_cons, ih, addSingleResult_rows_length, List.length_cons]
    omega

/-! Helper lemmas about `dataframeFor`. -/

theorem exists_match_of_dataframeFor_ne_nil {rs : ResultSet} {q : Query}
    (h : dataframeFor rs q ≠ []) : ∃ row ∈ rs.rows, matchesQuery row q = true := by
  by_contra hc
  push_neg at hc
  exact h (List.filter_eq_nil_iff.mpr hc)

theorem dataframeFor_ne_nil_of_match {rs : ResultSet} {q : Query} (row : Row)
    (hr : row ∈ rs.rows) (hm : matchesQuery row q = true) : dataframeFor rs q ≠ [] :=
  List.ne_nil_of_mem (List.mem_filter.mpr ⟨hr, hm⟩)

theorem dataframeFor_ne_nil_addSingleResult {rs : ResultSet} {q : Query} (rc : Record)
    (h : dataframeFor rs q ≠ []) : dataframeFor (addSingleResult rs rc) q ≠ [] := by
  obtain ⟨row, hr, hm⟩ := exists_match_of_dataframeFor_ne_nil h
  refine dataframeFor_ne_nil_of_match (row ++
    (freshFields rs.schema (contributedFields rc)).map (fun e => (e.name, sentinel))) ?_
    (matchesQuery_append hm)
  rw [addSingleResult_rows]
  exact List.mem_append_left _ (List.mem_map.mpr ⟨row, hr, rfl⟩)

theorem dataframeFor_ne_nil_foldl (rcs : List Record) :
    ∀ (rs : ResultSet) (q : Query), dataframeFor rs q ≠ [] →
      dataframeFor (rcs.foldl addSingleResult rs) q ≠ [] := by
  induction rcs with
  | nil => intro rs q h; exact h
  | cons rc t ih =>
    intro rs q h
    rw [List.foldl_cons]
    exact ih _ q (dataframeFor_ne_nil_addSingleResult rc h)

/-! The freshly built row of `addSingleResult` matches a query made of the
record's exact parameter assignment. -/

theorem buildRow_matches (rs : ResultSet) (rc : Record) (hwf : rc.wf) :
    matchesQuery (buildRow (addSingleResult rs rc).schema rc) (toQuery rc.parameters) = true := by
  unfold matchesQuery toQuery
  rw [List.all_eq_true]
  intro kv hkv
  obtain ⟨p, hp, rfl⟩ := List.mem_map.mp hkv
  show matchesField _ p.1 (.single p.2) = true
  have hmem : p.1 ∈ (addSingleResult rs rc).schema.map SchemaEntry.name := by
    rw [addSingleResult_schema]
    refine names_mem_freshFields (contributedFields rc) rs.schema (p.1, FieldKind.param, typeOf p.2) ?_
    unfold contributedFields
    refine List.mem_append_left _ (List.mem_append_right _ ?_)
    exact List.mem_map.mpr ⟨p, hp, rfl⟩
  have hlk : (buildRow (addSingleResult rs rc).schema rc).lookup p.1
      = some (((effectiveFields rc).lookup p.1).getD sentinel) := by
    unfold buildRow
    exact lookup_map_name (g := fun n => ((effectiveFields rc).lookup n).getD sentinel) hmem
  have hmd : rc.metadata.lookup p.1 = none := lookup_eq_none (hwf.2 p hp)
  have hpar : rc.parameters.lookup p.1 = some p.2 := lookup_of_mem_nodup hwf.1 hp
  have heff : (effectiveFields rc).lookup p.1 = some p.2 := by
    unfold effectiveFields
    exact lookup_append_some (by rw [lookup_append_none hmd]; exact hpar)
  unfold matchesField
  rw [hlk, heff]
  simp

theorem fresh_retrievable (rs : ResultSet) (rc : Record) (hwf : rc.wf) :
    dataframeFor (addSingleResult rs rc) (toQuery rc.parameters) ≠ [] := by
  refine dataframeFor_ne_nil_of_match _ ?_ (buildRow_matches rs rc hwf)
  rw [addSingleResult_rows]
  exact List.mem_append_right _ (List.mem_singleton.mpr rfl)

/-! Helper lemmas about `step`: schema growth and the type-changed flag. -/

theorem inferFields_typechanged_of_growth (rs : ResultSet)
    (fs : List (String × FieldKind × StorageType))
    (h : (inferFields rs fs).schema ≠ rs.schema) : (inferFields rs fs).typechanged = true := by
  rw [inferFields_schema] at h
  have hne : freshFields rs.schema fs ≠ [] := fun he => h (by rw [he, List.append_nil])
  rw [inferFields_typechanged]
  cases hfe : freshFields rs.schema fs with
  | nil => exact absurd hfe hne
  | cons a t => simp [hfe, List.isEmpty]

theorem inferFields_typechanged_of_no_growth (rs : ResultSet)
    (fs : List (String × FieldKind × StorageType))
    (h : (inferFields rs fs).schema = rs.schema) :
    (inferFields rs fs).typechanged = rs.typechanged := by
  rw [inferFields_schema] at h
  have he : freshFields rs.schema fs = [] := append_right_nil_of_eq h
  rw [inferFields_typechanged, he]
  simp [List.isEmpty]

theorem step_addResult (rs : ResultSet) (rc : Record) :
    step rs (.addResult rc) = addSingleResult rs rc := rfl

theorem step_addPending_dup (rs : ResultSet) (ps : List (String × Value)) (jobId : String)
    (h1 : outstanding rs jobId = true) : step rs (.addPending ps jobId) = rs := by
  simp [step, addSinglePendingResult, h1]

theorem step_addPending_ok (rs : ResultSet) (ps : List (String × Value)) (jobId : String)
    (h1 : outstanding rs jobId = false)
    (h2 : supersetOf (ps.map Prod.fst) (parameterNamesOf rs) = true) :
    step rs (.addPending ps jobId) =
      { inferPendingResultDtype rs ps with
        pending := (inferPendingResultDtype rs ps).pending ++ [(jobId, ps)] } := by
  simp [step, addSinglePendingResult, h1, h2]

theorem step_addPending_mismatch (rs : ResultSet) (ps : List (String × Value)) (jobId : String)
    (h1 : outstanding rs jobId = false)
    (h2 : supersetOf (ps.map Prod.fst) (parameterNamesOf rs) = false) :
    step rs (.addPending ps jobId) = rs := by
  simp [step, addSinglePendingResult, h1, h2]

theorem step_cancel_ok (rs : ResultSet) (jobId : String)
    (h1 : outstanding rs jobId = true) :
    step rs (.cancelPending jobId) =
      { rs with pending := rs.pending.filter (fun p => !(p.1 == jobId)) } := by
  simp [step, cancelSinglePendingResult, h1]

theorem step_cancel_err (rs : ResultSet) (jobId : String)
    (h1 : outstanding rs jobId = false) : step rs (.cancelPending jobId) = rs := by
  simp [step, cancelSinglePendingResult, h1]

theorem step_schema_grows (rs : ResultSet) (op : Op) :
    ∃ ext, (step rs op).schema = rs.schema ++ ext := by
  cases op with
  | addResult rc => exact ⟨_, addSingleResult_schema rs rc⟩
  | addPending ps jobId =>
    cases h1 : outstanding rs jobId with
    | true => exact ⟨[], by rw [step_addPending_dup rs ps jobId h1, List.append_nil]⟩
    | false =>
      cases h2 : supersetOf (ps.map Prod.fst) (parameterNamesOf rs) with
      | true =>
        refine ⟨freshFields rs.schema (ps.map (fun nv => (nv.1, FieldKind.param, typeOf nv.2))), ?_⟩
        rw [step_addPending_ok rs ps jobId h1 h2]
        rfl
      | false => exact ⟨[], by rw [step_addPending_mismatch rs ps jobId h1 h2, List.append_nil]⟩
  | cancelPending jobId =>
    cases h1 : outstanding rs jobId with
    | true => exact ⟨[], by rw [step_cancel_ok rs jobId h1, List.append_nil]⟩
    | false => exact ⟨[], by rw [step_cancel_err rs jobId h1, List.append_nil]⟩
  | inferRecord rc => exact ⟨_, inferFields_schema rs (contributedFields rc)⟩
  | inferPending ps => exact ⟨_, inferFields_schema rs _⟩
  | runQuery q => exact ⟨[], (List.append_nil _).symm⟩
  | resetFlag => exact ⟨[], (List.append_nil _).symm⟩

theorem step_typechanged_of_growth (rs : ResultSet) (op : Op)
    (h : (step rs op).schema ≠ rs.schema) : (step rs op).typechanged = true := by
  cases op with
  | addResult rc =>
    show (addSingleResult rs rc).typechanged = true
    rw [addSingleResult_typechanged]
    exact inferFields_typechanged_of_growth rs (contributedFields rc) h
  | addPending ps jobId =>
    cases h1 : outstanding rs jobId with
    | true => rw [step_addPending_dup rs ps jobId h1] at h; exact absurd rfl h
    | false =>
      cases h2 : supersetOf (ps.map Prod.fst) (parameterNamesOf rs) with
      | true =>
        rw [step_addPending_ok rs ps jobId h1 h2] at h
        rw [step_addPending_ok rs ps jobId h1 h2]
        show (inferFields rs (ps.map (fun nv => (nv.1, FieldKind.param, typeOf nv.2)))).typechanged
          = true
        exact inferFields_typechanged_of_growth rs _ h
      | false => rw [step_addPending_mismatch rs ps jobId h1 h2] at h; exact absurd rfl h
  | cancelPending jobId =>
    cases h1 : outstanding rs jobId with
    | true => rw [step_cancel_ok rs jobId h1] at h; exact absurd rfl h
    | false => rw [step_cancel_err rs jobId h1] at h; exact absurd rfl h
  | inferRecord rc =>
    show (inferFields rs (contributedFields rc)).typechanged = true
    exact inferFields_typechanged_of_growth rs (contributedFields rc) h
  | inferPending ps =>
    show (inferFields rs (ps.map (fun nv => (nv.1, FieldKind.param, typeOf nv.2)))).typechanged
      = true
    exact inferFields_typechanged_of_growth rs _ h
  | runQuery q => exact absurd rfl h
  | resetFlag => exact absurd rfl h

theorem step_reset_no_growth (rs : ResultSet) (op : Op)
    (h : (step (resetTypeChanged rs) op).schema = rs.schema) :
    (step (resetTypeChanged rs) op).typechanged = false := by
  have hsch : (resetTypeChanged rs).schema = rs.schema := rfl
  cases op with
  | addResult rc =>
    show (inferFields (resetTypeChanged rs) (contributedFields rc)).typechanged = false
    have h' : (inferFields (resetTypeChanged rs) (contributedFields rc)).schema
        = (resetTypeChanged rs).schema := h.trans hsch.symm
    rw [inferFields_typechanged_of_no_growth _ _ h']
    rfl
  | addPending ps jobId =>
    cases h1 : outstanding (resetTypeChanged rs) jobId with
    | true => rw [step_addPending_dup _ ps jobId h1]; rfl
    | false =>
      cases h2 : supersetOf (ps.map Prod.fst) (parameterNamesOf (resetTypeChanged rs)) with
      | true =>
        rw [step_addPending_ok _ ps jobId h1 h2] at h
        have h' : (inferFields (resetTypeChanged rs)
            (ps.map (fun nv => (nv.1, FieldKind.param, typeOf nv.2)))).schema
            = (resetTypeChanged rs).schema := h.trans hsch.symm
        rw [step_addPending_ok _ ps jobId h1 h2]
        show (inferFields (resetTypeChanged rs)
            (ps.map (fun nv => (nv.1, FieldKind.param, typeOf nv.2)))).typechanged = false
        rw [inferFields_typechanged_of_no_growth _ _ h']
        rfl
      | false => rw [step_addPending_mismatch _ ps jobId h1 h2]; rfl
  | cancelPending jobId =>
    cases h1 : outstanding (resetTypeChanged rs) jobId with
    | true => rw [step_cancel_ok _ jobId h1]; rfl
    | false => rw [step_cancel_err _ jobId h1]; rfl
  | inferRecord rc =>
    show (inferFields (resetTypeChanged rs) (contributedFields rc)).typechanged = false
    rw [inferFields_typechanged_of_no_growth _ _ (h.trans hsch.symm)]
    rfl
  | inferPending ps =>
    show (inferFields (resetTypeChanged rs)
        (ps.map (fun nv => (nv.1, FieldKind.param, typeOf nv.2)))).typechanged = false
    rw [inferFields_typechanged_of_no_growth _ _ (h.trans hsch.symm)]
    rfl
  | runQuery q => rfl
  | resetFlag => rfl

/-! Helper lemmas for the pending-job protocol. -/

theorem outstanding_filter_self (pend : List (String × List (String × Value))) (j : String) :
    (pend.filter (fun p => !(p.1 == j))).any (fun p => p.1 == j) = false := by
  rw [List.any_eq_false]
  intro p hp
  have h2 := (List.mem_filter.mp hp).2
  simp only [Bool.not_eq_eq_eq_not, Bool.not_true] at h2
  simp [h2]

theorem outstanding_append_self (pend : List (String × List (String × Value)))
    (j : String) (ps : List (String × Value)) :
    (pend ++ [(j, ps)]).any (fun p => p.1 == j) = true := by
  rw [List.any_append]
  simp

theorem addSinglePendingResult_dup_iff (rs : ResultSet) (ps : List (String × Value)) (j : String) :
    addSinglePendingResult rs ps j = .error .DuplicateJob ↔ outstanding rs j = true := by
  constructor
  · intro h
    by_contra hc
    rw [Bool.not_eq_true] at hc
    unfold addSinglePendingResult at h
    rw [hc] at h
    simp only [Bool.false_eq_true, if_false] at h
    cases h2 : supersetOf (ps.map Prod.fst) (parameterNamesOf rs) with
    | true => rw [h2] at h; simp at h
    | false => rw [h2] at h; simp at h
  · intro h
    unfold addSinglePendingResult
    rw [h]
    simp

theorem cancelSinglePendingResult_err_iff (rs : ResultSet) (j : String) :
    cancelSinglePendingResult rs j = .error .UnknownJob ↔ outstanding rs j = false := by
  constructor
  · intro h
    cases h1 : outstanding rs j with
    | true => unfold cancelSinglePendingResult at h; rw [h1] at h; simp at h
    | false => rfl
  · intro h
    unfold cancelSinglePendingResult
    rw [h]
    simp

theorem cancelSinglePendingResult_ok (rs : ResultSet) (j : String) (rs' : ResultSet)
    (h : cancelSinglePendingResult rs j = .ok rs') :
    rs' = { rs with pending := rs.pending.filter (fun p => !(p.1 == j)) } := by
  unfold cancelSinglePendingResult at h
  cases h1 : outstanding rs j with
  | true =>
    rw [h1] at h
    simp only [if_true] at h
    exact (Except.ok.injEq .. ▸ h).symm
  | false => rw [h1] at h; simp at h

/-! Field names contributed by a record to schema inference. -/

theorem contributedFields_names (rc : Record) :
    (contributedFields rc).map Prod.fst
      = standardMetadata.map Prod.fst ++ rc.metadata.map Prod.fst
        ++ rc.parameters.map Prod.fst
        ++ (if rc.success then rc.results.map Prod.fst else []) := by
  unfold contributedFields
  rw [List.map_append, List.map_append, List.map_append, List.map_map, List.map_map,
    List.map_map, apply_ite (List.map Prod.fst), List.map_map]
  rfl

/-! Helper lemmas for the parameter-space generator. -/

theorem paramRange_of_mem {lab : Lab} (hnd : (lab.parameters.map Prod.fst).Nodup)
    {e : String × List Value} (he : e ∈ lab.parameters) : paramRange lab e.1 = e.2 := by
  unfold paramRange
  rw [lookup_of_mem_nodup hnd he]
  rfl

theorem crossProduct_eq_spec (lab : Lab) :
    ∀ (rest : List (String × List Value)) (p : String) (r : List Value),
      paramRange lab p = r → (∀ e ∈ rest, paramRange lab e.1 = e.2) →
      crossProduct lab p (rest.map Prod.fst) = specCartesian ((p, r) :: rest) := by
  intro rest
  induction rest with
  | nil =>
    intro p r hp _
    show crossProduct lab p [] = _
    unfold crossProduct specCartesian
    rw [hp]
  | cons e t ih =>
    obtain ⟨q, s⟩ := e
    intro p r hp hrest
    show crossProduct lab p (q :: t.map Prod.fst) = _
    unfold crossProduct
    rw [ih q s (hrest (q, s) (List.mem_cons_self ..))
      (fun x hx => hrest x (List.mem_cons_of_mem _ hx)), hp]
    rfl

theorem parameterSpace_eq_spec (lab : Lab) (hnd : (lab.parameters.map Prod.fst).Nodup) :
    parameterSpace lab = specCartesian lab.parameters := by
  cases hps : lab.parameters with
  | nil =>
    unfold parameterSpace
    rw [hps]
    rfl
  | cons e rest =>
    obtain ⟨p, r⟩ := e
    have h1 : paramRange lab p = r :=
      paramRange_of_mem hnd (e := (p, r)) (hps ▸ List.mem_cons_self ..)
    have h2 : ∀ x ∈ rest, paramRange lab x.1 = x.2 := fun x hx =>
      paramRange_of_mem hnd (hps ▸ List.mem_cons_of_mem _ hx)
    unfold parameterSpace
    rw [hps]
    exact crossProduct_eq_spec lab rest p r h1 h2

theorem length_flatMap_map {α β γ : Type} (l : List α) (m : List β) (g : α → β → γ) :
    (l.flatMap (fun v => m.map (g v))).length = l.length * m.length := by
  induction l with
  | nil => simp
  | cons a t ih => simp [List.flatMap_cons, ih, Nat.succ_mul, Nat.add_comm]

theorem specCartesian_length :
    ∀ ps : List (String × List Value), ps ≠ [] →
      (specCartesian ps).length = (ps.map (fun e => e.2.length)).prod := by
  intro ps
  induction ps with
  | nil => intro h; exact absurd rfl h
  | cons e t ih =>
    obtain ⟨p, r⟩ := e
    intro _
    cases t with
    | nil => simp [specCartesian]
    | cons e2 t2 =>
      have hup : specCartesian ((p, r) :: e2 :: t2)
          = r.flatMap (fun v => (specCartesian (e2 :: t2)).map (fun d => dictSet d p v)) := rfl
      rw [hup, length_flatMap_map, ih (by simp)]
      simp [List.prod_cons]

theorem foldl_mul_congr {α : Type} (g h : α → Nat) :
    ∀ (l : List α), (∀ x ∈ l, g x = h x) → ∀ (n : Nat),
      l.foldl (fun acc x => acc * g x) n = l.foldl (fun acc x => acc * h x) n := by
  intro l
  induction l with
  | nil => intro _ n; rfl
  | cons a t ih =>
    intro hx n
    simp only [List.foldl_cons]
    rw [hx a (List.mem_cons_self ..), ih (fun x h2 => hx x (List.mem_cons_of_mem _ h2))]

theorem labLen_eq_prod (lab : Lab) (hnd : (lab.parameters.map Prod.fst).Nodup) :
    labLen lab = (lab.parameters.map (fun e => e.2.length)).prod := by
  unfold labLen
  rw [List.foldl_map]
  rw [foldl_mul_congr (fun e => (paramRange lab e.1).length) (fun e => e.2.length)
    lab.parameters
    (fun x hx => by
      show (paramRange lab x.1).length = x.2.length
      rw [paramRange_of_mem hnd hx]) 1]
  rw [List.prod_eq_foldl, ← List.foldl_map]

theorem option_some_beq_some {α : Type} [BEq α] (a b : α) :
    ((some a : Option α) == some b) = (a == b) := rfl

theorem option_none_beq_some {α : Type} [BEq α] (b : α) :
    ((none : Option α) == some b) = false := rfl

/-! The claims. -/

/-- C1, counterexample: in the two-record scenario of the test suite, record
`rc2` extends the schema with the text field `extra`; querying `rc1`'s row
afterwards yields the uniform numeric-zero sentinel for `extra`, not the
empty string the claim prescribes for text fields. -/
theorem claim1_backfill_counterexample :
    ((dataframeFor rsB [("k", .single (.vint 1))]).head?.bind (fun row => row.lookup "extra"))
        = some sentinel ∧
    ((rsB.schema.find? (fun e => e.name == "extra")).map SchemaEntry.stype)
        = some StorageType.tstr ∧
    sentinel ≠ specDefaultFor StorageType.tstr := by decide

/-- C1, amended: after a schema extension triggered by a record introducing
field f absent from the previously stored rows, each previously stored row
reads back the uniform sentinel (numeric zero, regardless of f's storage
type — for text fields 0, not the empty string). -/
theorem claim1_backfill (rs : ResultSet) (rc : Record) (f : String) (i : Nat)
    (hwf : rowsWf rs = true)
    (hnew : f ∉ rs.schema.map SchemaEntry.name)
    (hin : f ∈ (inferDtype rs rc).schema.map SchemaEntry.name)
    (hi : i < rs.rows.length) :
    ((addSingleResult rs rc).rows[i]?).bind (fun row => row.lookup f) = some sentinel := by
  rw [addSingleResult_rows, List.getElem?_append]
  have hlen : i < (rs.rows.map (fun row =>
      row ++ (freshFields rs.schema (contributedFields rc)).map
        (fun e => (e.name, sentinel)))).length := by
    rw [List.length_map]
    exact hi
  rw [if_pos hlen, List.getElem?_map, List.getElem?_eq_getElem hi]
  simp only [Option.map_some', Option.some_bind]
  have hrm : rs.rows[i] ∈ rs.rows := List.getElem_mem hi
  have hkeys : (rs.rows[i]).map Prod.fst = rs.schema.map SchemaEntry.name := by
    have hall : ∀ row ∈ rs.rows,
        (row.map Prod.fst == rs.schema.map SchemaEntry.name) = true :=
      List.all_eq_true.mp hwf
    exact beq_iff_eq.mp (hall _ hrm)
  have hnone : (rs.rows[i]).lookup f = none := lookup_eq_none (by rw [hkeys]; exact hnew)
  rw [lookup_append_none hnone]
  have hin' : f ∈ (freshFields rs.schema (contributedFields rc)).map SchemaEntry.name := by
    rw [show (inferDtype rs rc).schema
        = rs.schema ++ freshFields rs.schema (contributedFields rc) from rfl,
      List.map_append] at hin
    rcases List.mem_append.mp hin with h0 | h0
    · exact absurd h0 hnew
    · exact h0
  exact lookup_map_name (g := fun _ => sentinel) hin'

/-- C1, witness: the amended theorem applied to the concrete two-record
scenario. -/
theorem claim1_backfill_witness :
    (rowsWf rsA = true ∧ "extra" ∉ rsA.schema.map SchemaEntry.name ∧
      "extra" ∈ (inferDtype rsA rc2).schema.map SchemaEntry.name ∧ 0 < rsA.rows.length) ∧
    ((addSingleResult rsA rc2).rows[0]?).bind (fun row => row.lookup "extra") = some sentinel :=
  ⟨⟨by decide, by decide, by decide, by decide⟩,
   claim1_backfill rsA rc2 "extra" 0 (by decide) (by decide) (by decide) (by decide)⟩

/-- C2: the empty query returns all rows; a single-value query returns
exactly the rows whose field equals that value; a two-value collection query
returns the union of the two single-value matches; and a query on two
distinct fields returns the intersection of the two per-field matches. -/
theorem claim2_query (rs : ResultSet) (k k1 k2 : String) (v v1 v2 : Value)
    (a b : QueryVal) (hk : k1 ≠ k2) :
    dataframeFor rs [] = rs.rows ∧
    dataframeFor rs [(k, .single v)]
      = rs.rows.filter (fun row => row.lookup k == some v) ∧
    dataframeFor rs [(k, .several [v1, v2])]
      = rs.rows.filter
          (fun row => (row.lookup k == some v1) || (row.lookup k == some v2)) ∧
    (∀ row, row ∈ dataframeFor rs [(k1, a), (k2, b)] ↔
      (row ∈ dataframeFor rs [(k1, a)] ∧ row ∈ dataframeFor rs [(k2, b)])) := by
  refine ⟨?_, ?_, ?_, ?_⟩
  · unfold dataframeFor matchesQuery
    simp
  · unfold dataframeFor
    refine List.filter_congr (fun row _ => ?_)
    unfold matchesQuery matchesField
    cases hl : row.lookup k with
    | none => simp [hl, option_none_beq_some]
    | some w => simp [hl, option_some_beq_some]
  · unfold dataframeFor
    refine List.filter_congr (fun row _ => ?_)
    unfold matchesQuery matchesField
    cases hl : row.lookup k with
    | none => simp [hl, option_none_beq_some]
    | some w => simp [hl, option_some_beq_some]
  · intro row
    unfold dataframeFor
    simp only [List.mem_filter, matchesQuery, List.all_cons, List.all_nil, Bool.and_true,
      Bool.and_eq_true]
    tauto

/-- C2, witness: the query laws evaluated on the concrete two-row store. -/
theorem claim2_query_witness :
    ("k" ≠ "total") ∧
    (dataframeFor rsB [] = rsB.rows ∧
      dataframeFor rsB [("k", .single (.vint 1))]
        = rsB.rows.filter (fun row => row.lookup "k" == some (.vint 1)) ∧
      dataframeFor rsB [("k", .several [.vint 1, .vint 2])]
        = rsB.rows.filter
            (fun row => (row.lookup "k" == some (.vint 1)) || (row.lookup "k" == some (.vint 2))) ∧
      (∀ row, row ∈ dataframeFor rsB
            [("k", QueryVal.single (.vint 1)), ("total", QueryVal.single (.vfloat 2))] ↔
        (row ∈ dataframeFor rsB [("k", QueryVal.single (.vint 1))] ∧
          row ∈ dataframeFor rsB [("total", QueryVal.single (.vfloat 2))]))) :=
  ⟨by decide,
   claim2_query rsB "k" "k" "total" (.vint 1) (.vint 1) (.vint 2)
     (.single (.vint 1)) (.single (.vfloat 2)) (by decide)⟩

/-- C3: the returned dataframe is an independent snapshot — updating a cell
of the returned structure leaves the store unchanged, so re-running the
identical query returns the original rows, not the mutated ones. -/
theorem claim3_snapshot (rs : ResultSet) (q : Query) (i : Nat) (k : String) (v : Value)
    (hchanged : updateCell (dataframeForS rs q).1 i k v ≠ (dataframeForS rs q).1) :
    (dataframeForS (dataframeForS rs q).2 q).1 = (dataframeForS rs q).1 ∧
    (dataframeForS (dataframeForS rs q).2 q).1 ≠ updateCell (dataframeForS rs q).1 i k v :=
  ⟨rfl, fun h => hchanged h.symm⟩

/-- C3, witness: a concrete in-place update on a returned frame really
changes the frame, yet the re-run query still returns the original rows. -/
theorem claim3_snapshot_witness :
    (updateCell (dataframeForS rsB []).1 0 "k" (.vint 9) ≠ (dataframeForS rsB []).1) ∧
    ((dataframeForS (dataframeForS rsB []).2 []).1 = (dataframeForS rsB []).1 ∧
      (dataframeForS (dataframeForS rsB []).2 []).1
        ≠ updateCell (dataframeForS rsB []).1 0 "k" (.vint 9)) :=
  ⟨by decide, claim3_snapshot rsB [] 0 "k" (.vint 9) (by decide)⟩

/-- C4: for any sequence of `addSingleResult` calls, `numberOfResults`
equals the number of calls, and every added record stays retrievable by a
`dataframeFor` query made of its exact original parameter assignment, later
schema extensions included. -/
theorem claim4_accumulate (rcs : List Record) (hwf : ∀ rc ∈ rcs, rc.wf) :
    numberOfResults (applyAll rcs) = rcs.length ∧
    ∀ rc ∈ rcs, dataframeFor (applyAll rcs) (toQuery rc.parameters) ≠ [] := by
  constructor
  · unfold numberOfResults applyAll
    rw [foldl_rows_length]
    simp [emptyResultSet]
  · intro rc hrc
    obtain ⟨s, t, rfl⟩ := List.append_of_mem hrc
    unfold applyAll
    rw [List.foldl_append, List.foldl_cons]
    exact dataframeFor_ne_nil_foldl t _ _
      (fresh_retrievable _ rc (hwf rc (List.mem_append_right _ (List.mem_cons_self ..))))

/-- C4, witness: the accumulation law applied to the concrete two-record
sequence. -/
theorem claim4_accumulate_witness :
    (∀ rc ∈ [rc1, rc2], rc.wf) ∧
    (numberOfResults (applyAll [rc1, rc2]) = [rc1, rc2].length ∧
      ∀ rc ∈ [rc1, rc2], dataframeFor (applyAll [rc1, rc2]) (toQuery rc.parameters) ≠ []) :=
  ⟨by decide, claim4_accumulate [rc1, rc2] (by decide)⟩

/-- C5: schema growth is monotonic across every store operation — the old
schema is always a prefix of the new one, so no field name is ever removed
and each known field keeps the storage type of its first inference; the
type-changed flag is true immediately after any call that grew the schema,
and false after a reset followed by a call growing nothing. -/
theorem claim5_monotonic (rs : ResultSet) (op op' : Op) :
    (∃ ext, (step rs op).schema = rs.schema ++ ext) ∧
    (∀ e ∈ rs.schema, e ∈ (step rs op).schema) ∧
    ((step rs op).schema ≠ rs.schema → (step rs op).typechanged = true) ∧
    ((step (resetTypeChanged rs) op').schema = rs.schema →
      (step (resetTypeChanged rs) op').typechanged = false) := by
  refine ⟨step_schema_grows rs op, ?_, step_typechanged_of_growth rs op,
    step_reset_no_growth rs op'⟩
  intro e he
  obtain ⟨ext, hext⟩ := step_schema_grows rs op
  rw [hext]
  exact List.mem_append_left _ he

/-- C5, witness: adding `rc2` to the one-record store grows the schema and
raises the flag; after a reset, a query grows nothing and the flag stays
false. -/
theorem claim5_monotonic_witness :
    ((step rsA (.addResult rc2)).schema ≠ rsA.schema ∧
      (step (resetTypeChanged rsA) (.runQuery [])).schema = rsA.schema) ∧
    ((step rsA (.addResult rc2)).typechanged = true ∧
      (step (resetTypeChanged rsA) (.runQuery [])).typechanged = false ∧
      ∀ e ∈ rsA.schema, e ∈ (step rsA (.addResult rc2)).schema) :=
  ⟨⟨by decide, by decide⟩,
   ⟨(claim5_monotonic rsA (.addResult rc2) (.runQuery [])).2.2.1 (by decide),
    (claim5_monotonic rsA (.addResult rc2) (.runQuery [])).2.2.2 (by decide),
    (claim5_monotonic rsA (.addResult rc2) (.runQuery [])).2.1⟩⟩

/-- C6: `inferDtype` contributes every fixed standard metadata field
(exception and traceback included, success or not) and every parameter field
of the record; it contributes the record's result fields exactly when the
success flag is true — on failure no name beyond the old schema, the
standard set, and the record's metadata and parameter names appears. -/
theorem claim6_contributes (rs : ResultSet) (rc : Record) :
    ("exception" ∈ (inferDtype rs rc).schema.map SchemaEntry.name ∧
      "traceback" ∈ (inferDtype rs rc).schema.map SchemaEntry.name) ∧
    (∀ nt ∈ standardMetadata, nt.1 ∈ (inferDtype rs rc).schema.map SchemaEntry.name) ∧
    (∀ nv ∈ rc.parameters, nv.1 ∈ (inferDtype rs rc).schema.map SchemaEntry.name) ∧
    (rc.success = true →
      ∀ nv ∈ rc.results, nv.1 ∈ (inferDtype rs rc).schema.map SchemaEntry.name) ∧
    (rc.success = false →
      ∀ n ∈ (inferDtype rs rc).schema.map SchemaEntry.name,
        n ∈ rs.schema.map SchemaEntry.name ∨ n ∈ standardMetadata.map Prod.fst ∨
        n ∈ rc.metadata.map Prod.fst ∨ n ∈ rc.parameters.map Prod.fst) := by
  have hstd : ∀ nt ∈ standardMetadata,
      nt.1 ∈ (inferDtype rs rc).schema.map SchemaEntry.name := by
    intro nt hnt
    refine names_mem_freshFields (contributedFields rc) rs.schema
      (nt.1, FieldKind.meta, nt.2) ?_
    unfold contributedFields
    exact List.mem_append_left _ (List.mem_append_left _ (List.mem_append_left _
      (List.mem_map.mpr ⟨nt, hnt, rfl⟩)))
  refine ⟨⟨hstd ("exception", .tstr) (by decide), hstd ("traceback", .tstr) (by decide)⟩,
    hstd, ?_, ?_, ?_⟩
  · intro nv hnv
    refine names_mem_freshFields (contributedFields rc) rs.schema
      (nv.1, FieldKind.param, typeOf nv.2) ?_
    unfold contributedFields
    exact List.mem_append_left _ (List.mem_append_right _ (List.mem_map.mpr ⟨nv, hnv, rfl⟩))
  · intro hsucc nv hnv
    refine names_mem_freshFields (contributedFields rc) rs.schema
      (nv.1, FieldKind.result, typeOf nv.2) ?_
    unfold contributedFields
    rw [hsucc]
    refine List.mem_append_right _ ?_
    rw [if_pos rfl]
    exact List.mem_map.mpr ⟨nv, hnv, rfl⟩
  · intro hfail n hn
    rw [show (inferDtype rs rc).schema
        = rs.schema ++ freshFields rs.schema (contributedFields rc) from rfl,
      List.map_append] at hn
    rcases List.mem_append.mp hn with h0 | h0
    · exact Or.inl h0
    · obtain ⟨e, he, rfl⟩ := List.mem_map.mp h0
      have hsub := freshFields_names_sub (contributedFields rc) rs.schema e he
      rw [contributedFields_names, hfail] at hsub
      simp only [Bool.false_eq_true, if_false, List.append_nil, List.mem_append] at hsub
      rcases hsub with (h1 | h1) | h1
      · exact Or.inr (Or.inl h1)
      · exact Or.inr (Or.inr (Or.inl h1))
      · exact Or.inr (Or.inr (Or.inr h1))

/-- C6, witness: the contribution law evaluated on a successful and on a
failed concrete record over the empty store. -/
theorem claim6_contributes_witness :
    (rc1.success = true ∧ rcF.success = false) ∧
    ((∀ nv ∈ rc1.results, nv.1 ∈ (inferDtype emptyResultSet rc1).schema.map SchemaEntry.name) ∧
      (∀ n ∈ (inferDtype emptyResultSet rcF).schema.map SchemaEntry.name,
        n ∈ emptyResultSet.schema.map SchemaEntry.name ∨ n ∈ standardMetadata.map Prod.fst ∨
        n ∈ rcF.metadata.map Prod.fst ∨ n ∈ rcF.parameters.map Prod.fst)) :=
  ⟨⟨by decide, by decide⟩,
   ⟨(claim6_contributes emptyResultSet rc1).2.2.2.1 (by decide),
    (claim6_contributes emptyResultSet rcF).2.2.2.2 (by decide)⟩⟩

/-- C7: registering a pending job fails with DuplicateJob exactly when the
identifier is currently outstanding; cancelling fails with UnknownJob
exactly when it is not; after a successful cancel the identifier is free
again — a second cancel fails and re-registration no longer reports
DuplicateJob. -/
theorem claim7_pending (rs : ResultSet) (ps : List (String × Value)) (j : String) :
    (addSinglePendingResult rs ps j = .error .DuplicateJob ↔ outstanding rs j = true) ∧
    (cancelSinglePendingResult rs j = .error .UnknownJob ↔ outstanding rs j = false) ∧
    (∀ rs', cancelSinglePendingResult rs j = .ok rs' →
      outstanding rs' j = false ∧
      cancelSinglePendingResult rs' j = .error .UnknownJob ∧
      addSinglePendingResult rs' ps j ≠ .error .DuplicateJob) := by
  refine ⟨addSinglePendingResult_dup_iff rs ps j, cancelSinglePendingResult_err_iff rs j, ?_⟩
  intro rs' hok
  have hrs' := cancelSinglePendingResult_ok rs j rs' hok
  have hout : outstanding rs' j = false := by
    rw [hrs']
    exact outstanding_filter_self rs.pending j
  refine ⟨hout, (cancelSinglePendingResult_err_iff rs' j).mpr hout, ?_⟩
  intro hdup
  rw [(addSinglePendingResult_dup_iff rs' ps j).mp hdup] at hout
  cases hout

/-- C7, witness: the pending lifecycle on the concrete one-job store. -/
theorem claim7_pending_witness :
    (cancelSinglePendingResult rsP "J" = .ok rsQ) ∧
    (outstanding rsQ "J" = false ∧
      cancelSinglePendingResult rsQ "J" = .error .UnknownJob ∧
      addSinglePendingResult rsQ [("x", .vint 5)] "J" ≠ .error .DuplicateJob) :=
  ⟨by decide, (claim7_pending rsP [("x", .vint 5)] "J").2.2 rsQ (by decide)⟩

/-- C8, counterexample: on a store where job `J` is already outstanding, a
registration whose parameter names are a superset of the schema's parameter
names still fails (with DuplicateJob), so the claim's unconditional "for
every store state ... succeeds when the key set is a superset" is false. -/
theorem claim8_mismatch_counterexample :
    supersetOf ([("x", Value.vint 5)].map Prod.fst) (parameterNamesOf rsP) = true ∧
    addSinglePendingResult rsP [("x", .vint 5)] "J" = .error .DuplicateJob := by decide

/-- C8, amended: for every store state in which the job identifier is not
currently outstanding, registration fails with ParameterMismatch exactly
when the supplied parameter names are not a superset of the schema's known
parameter names, and succeeds — registering the job — when they are a
superset (strict supersets included). -/
theorem claim8_mismatch (rs : ResultSet) (ps : List (String × Value)) (j : String)
    (h : outstanding rs j = false) :
    (supersetOf (ps.map Prod.fst) (parameterNamesOf rs) = false →
      addSinglePendingResult rs ps j = .error .ParameterMismatch) ∧
    (supersetOf (ps.map Prod.fst) (parameterNamesOf rs) = true →
      ∃ rs', addSinglePendingResult rs ps j = .ok rs' ∧ outstanding rs' j = true) := by
  constructor
  · intro h2
    unfold addSinglePendingResult
    rw [h, h2]
    simp
  · intro h2
    refine ⟨{ inferPendingResultDtype rs ps with
      pending := (inferPendingResultDtype rs ps).pending ++ [(j, ps)] }, ?_, ?_⟩
    · unfold addSinglePendingResult
      rw [h, h2]
      simp
    · show (rs.pending ++ [(j, ps)]).any (fun p => p.1 == j) = true
      exact outstanding_append_self rs.pending j ps

/-- C8, witness: with parameter x known to the schema and no job
outstanding, a strict-superset registration succeeds and an insufficient one
fails with ParameterMismatch. -/
theorem claim8_mismatch_witness :
    (outstanding rsQ "K" = false) ∧
    ((supersetOf (([] : List (String × Value)).map Prod.fst) (parameterNamesOf rsQ) = false →
        addSinglePendingResult rsQ [] "K" = .error .ParameterMismatch) ∧
      (supersetOf (([] : List (String × Value)).map Prod.fst) (parameterNamesOf rsQ) = true →
        ∃ rs', addSinglePendingResult rsQ [] "K" = .ok rs' ∧ outstanding rs' "K" = true)) :=
  ⟨by decide, claim8_mismatch rsQ [] "K" (by decide)⟩

/-- C9: the generator is a pure function of the ordered ranges and equals
the specification's cartesian product — no parameters give the empty list,
one range gives one assignment per value, and with several ranges each value
of the first range is paired with every assignment from the cross product of
the remaining ranges. -/
theorem claim9_space (lab : Lab) (hnd : (lab.parameters.map Prod.fst).Nodup) :
    parameterSpace lab = specCartesian lab.parameters ∧
    (lab.parameters = [] → parameterSpace lab = []) ∧
    (∀ p r, lab.parameters = [(p, r)] → parameterSpace lab = r.map (fun v => [(p, v)])) := by
  have hmain := parameterSpace_eq_spec lab hnd
  refine ⟨hmain, ?_, ?_⟩
  · intro h
    rw [hmain, h]
    rfl
  · intro p r h
    rw [hmain, h]
    rfl

/-- C9, witness: the generator law on a concrete two-parameter lab. -/
theorem claim9_space_witness :
    ((lab2.parameters.map Prod.fst).Nodup) ∧
    (parameterSpace lab2 = specCartesian lab2.parameters ∧
      (lab2.parameters = [] → parameterSpace lab2 = []) ∧
      (∀ p r, lab2.parameters = [(p, r)] →
        parameterSpace lab2 = r.map (fun v => [(p, v)]))) :=
  ⟨by decide, claim9_space lab2 (by decide)⟩

/-- C10: for a lab with at least one parameter, the length operator equals
the number of enumerated points (the product of the range lengths); for a
lab with no parameters it returns 1 (the empty product) while the
enumeration is empty, so the two disagree in that edge case. -/
theorem claim10_len (lab : Lab) (hnd : (lab.parameters.map Prod.fst).Nodup) :
    (lab.parameters ≠ [] → labLen lab = (parameterSpace lab).length) ∧
    (lab.parameters = [] → labLen lab = 1 ∧ parameterSpace lab = []) := by
  constructor
  · intro h
    rw [labLen_eq_prod lab hnd, parameterSpace_eq_spec lab hnd,
      specCartesian_length lab.parameters h]
  · intro h
    constructor
    · unfold labLen
      rw [h]
      rfl
    · unfold parameterSpace
      rw [h]

/-- C10, witness: agreement on a concrete two-parameter lab and the
disagreement on the empty lab. -/
theorem claim10_len_witness :
    ((lab2.parameters.map Prod.fst).Nodup ∧ lab2.parameters ≠ [] ∧
      labLen lab2 = (parameterSpace lab2).length) ∧
    ((lab0.parameters.map Prod.fst).Nodup ∧ lab0.parameters = [] ∧
      labLen lab0 = 1 ∧ parameterSpace lab0 = []) :=
  ⟨⟨by decide, by decide, (claim10_len lab2 (by decide)).1 (by decide)⟩,
   ⟨by decide, by decide,
    ((claim10_len lab0 (by decide)).2 (by decide)).1,
    ((claim10_len lab0 (by decide)).2 (by decide)).2⟩⟩

end Epyc
